import Mathlib

/-
Verification of the orchestration core of the arch-linux-installer wizard
(src/py/arch_installer.py) against its natural-language specification.

The development shallowly embeds, in Lean:
  - the quantity model (size parsing, rendering and arithmetic) used by the
    partition-sizing step; the actual parsing and rendering functions are the
    external humanfriendly library functions parse_size and format_size, which
    are only imported by the source, so they are modelled from the
    specification (decimal convention, largest unit of magnitude at least one,
    two decimal places, matching the default behaviour of that library);
  - the StorageInput wrapper and the partition-sizing computation of
    set_partition_sizes;
  - the shell-command step run_sh_cmd with its check=True subprocess call;
  - the password-form validation of password_form;
  - the confirmation gate confirm_selection together with the stack-derived
    caller name reconstruction of the helper named caller, and the
    re-selection dynamics of steps such as set_drive and set_timezone;
  - the sequence of writes that run performs on the shared answer mapping
    user_input, and the class-attribute sharing of that mapping.
-/

/-- Modelled from the spec: the decimal digit characters used by size
rendering. -/
def digitChar (d : Nat) : Char :=
  match d with
  | 0 => '0' | 1 => '1' | 2 => '2' | 3 => '3' | 4 => '4'
  | 5 => '5' | 6 => '6' | 7 => '7' | 8 => '8' | _ => '9'

/-- A character is an ASCII decimal digit. -/
def isDigitChar (c : Char) : Bool :=
  decide (48 ≤ c.toNat ∧ c.toNat ≤ 57)

/-- ASCII lower-casing, as applied by the size parser to its input. -/
def toLowerChar (c : Char) : Char :=
  if 65 ≤ c.toNat ∧ c.toNat ≤ 90 then Char.ofNat (c.toNat + 32) else c

/-- Fuel-indexed rendering of a natural number as decimal digit characters. -/
def natToDigitsAux : Nat → Nat → List Char
  | 0, _ => []
  | fuel + 1, n =>
    if n < 10 then [digitChar n]
    else natToDigitsAux fuel (n / 10) ++ [digitChar (n % 10)]

/-- Decimal digit characters of a natural number, most significant first. -/
def natToDigits (n : Nat) : List Char :=
  natToDigitsAux (n + 1) n

/-- Value of a list of decimal digit characters. -/
def digitsToNat (cs : List Char) : Nat :=
  cs.foldl (fun a c => a * 10 + (c.toNat - 48)) 0

/-- Modelled from the spec: byte factor of a lower-cased unit suffix from the
fixed set (bytes, kB, MB, GB, TB), decimal convention fixed for the whole
system; an unrecognized unit is a parse error. -/
def unitFactor : List Char → Option Nat
  | [] => some 1
  | ['b'] => some 1
  | ['b', 'y', 't', 'e'] => some 1
  | ['b', 'y', 't', 'e', 's'] => some 1
  | ['k', 'b'] => some 1000
  | ['m', 'b'] => some 1000000
  | ['g', 'b'] => some 1000000000
  | ['t', 'b'] => some 1000000000000
  | _ => none

/-- Splits the text after the integer digits into fractional digits (after a
decimal point, if present) and the remaining text. -/
def splitFrac (rest : List Char) : List Char × List Char :=
  match rest with
  | '.' :: t => (t.takeWhile isDigitChar, t.dropWhile isDigitChar)
  | _ => ([], rest)

/-- Modelled from the spec: parse of a lower-cased size text into an exact
byte count; magnitude digits, optional fractional digits, then a unit suffix
from the fixed set; empty magnitude or unknown unit is a parse error, and a
negative magnitude never parses because a minus sign is not a digit. -/
def parseSizeChars (cs : List Char) : Option Nat :=
  if (cs.takeWhile isDigitChar).isEmpty then none
  else
    match unitFactor ((splitFrac (cs.dropWhile isDigitChar)).2.dropWhile fun c => c == ' ') with
    | none => none
    | some f =>
      some ((digitsToNat (cs.takeWhile isDigitChar)
          * 10 ^ (splitFrac (cs.dropWhile isDigitChar)).1.length
          + digitsToNat (splitFrac (cs.dropWhile isDigitChar)).1) * f
        / 10 ^ (splitFrac (cs.dropWhile isDigitChar)).1.length)

/-- Modelled from the spec: the parse side of the quantity model, the
behaviour of the external humanfriendly parse_size used at src line 49.
Parsing is case-insensitive. -/
def parse_size (s : String) : Option Nat :=
  parseSizeChars (s.data.map toLowerChar)

/-- Renders a number of hundredths of a unit with up to two decimal places,
trailing zeros stripped. -/
def formatHundredths (h : Nat) : List Char :=
  if h % 100 = 0 then natToDigits (h / 100)
  else if h % 100 % 10 = 0 then
    natToDigits (h / 100) ++ ['.'] ++ natToDigits (h % 100 / 10)
  else
    natToDigits (h / 100) ++ ['.']
      ++ (if h % 100 < 10 then '0' :: natToDigits (h % 100) else natToDigits (h % 100))

/-- Modelled from the spec: the display unit for a byte count, the largest
unit whose magnitude is at least one; byte counts below one kB use plain
bytes. -/
def pickUnit (n : Nat) : Option (Nat × List Char) :=
  if 1000000000000 ≤ n then some (1000000000000, ['T', 'B'])
  else if 1000000000 ≤ n then some (1000000000, ['G', 'B'])
  else if 1000000 ≤ n then some (1000000, ['M', 'B'])
  else if 1000 ≤ n then some (1000, ['K', 'B'])
  else none

/-- Byte factor of the display unit chosen for a byte count. -/
def displayFactor (n : Nat) : Nat :=
  match pickUnit n with
  | some fu => fu.1
  | none => 1

/-- Modelled from the spec: rendering of a byte count in the display unit,
rounded to two decimal places (half up). -/
def formatSizeChars (n : Nat) : List Char :=
  match pickUnit n with
  | some (f, u) => formatHundredths ((n * 100 + f / 2) / f) ++ [' '] ++ u
  | none => natToDigits n ++ (if n = 1 then [' ', 'b', 'y', 't', 'e'] else [' ', 'b', 'y', 't', 'e', 's'])

/-- Modelled from the spec: the humanize side of the quantity model, the
behaviour of the external humanfriendly format_size used at src line 49. -/
def format_size (n : Nat) : String :=
  String.mk (formatSizeChars n)

/-- Embeds class StorageInput (src lines 388 to 391): raw is the parsed byte
count of the given text and humanized is the text itself; a parse failure in
the constructor is an exception, modelled by none. -/
structure StorageInput where
  raw : Nat
  humanized : String
deriving DecidableEq

/-- Constructor of StorageInput. -/
def StorageInput.make (val : String) : Option StorageInput :=
  (parse_size val).map fun r => ⟨r, val⟩

/-- Embeds the size computation of ArchInstaller.set_partition_sizes (src
lines 351 to 367): defaults boot 250mb, root 30gb, swap 10gb, and the derived
default written as home_size, computed by the expression
disk_size.raw - boot.raw + root.raw + swap.raw (left associated Python
arithmetic) and re-rendered through format_size. Returns
(boot, root, swap, home_size). -/
def set_partition_sizes_layout (disk_size_val : String) :
    Option (StorageInput × StorageInput × StorageInput × StorageInput) := do
  let disk_size ← StorageInput.make disk_size_val
  let boot ← StorageInput.make "250mb"
  let root ← StorageInput.make "30gb"
  let swap ← StorageInput.make "10gb"
  let home_size ← StorageInput.make
    (format_size ((disk_size.raw : Int) - (boot.raw : Int) + (root.raw : Int) + (swap.raw : Int)).toNat)
  return (boot, root, swap, home_size)

/-- Modelled from the spec: the remaining capacity for the remaining mount
point is the disk size minus the sum of the reserved boot, root and swap
sizes. Stated separately from the source embedding so the two can be
compared. -/
def spec_remaining_capacity (disk boot root swap : Int) : Int :=
  disk - (boot + root + swap)

/-- A dialog box displayed to the operator by run_sh_cmd. -/
inductive UiEvent where
  | successBox (name : String)
  | failureBox (name : String)
deriving DecidableEq

/-- Observable outcome of a completed run_sh_cmd call: the message boxes it
displayed and its Python return value (True or None). -/
structure ShOutcome where
  events : List UiEvent
  ret : Option Bool
deriving DecidableEq

/-- Embeds ArchInstaller.run_sh_cmd (src lines 374 to 385), parameterized by
the exit status of the external command. subprocess.run is called with
check=True, so a non-zero exit status raises CalledProcessError, modelled as
Except.error; otherwise the returncode test runs: zero shows the success box
and returns True, non-zero would show the failure box and return None. -/
def run_sh_cmd (name : String) (returncode : Int) : Except String ShOutcome :=
  if returncode ≠ 0 then Except.error "CalledProcessError"
  else if returncode = 0 then Except.ok ⟨[UiEvent.successBox name], some true⟩
  else Except.ok ⟨[UiEvent.failureBox name], none⟩

/-- Result of one round of the password form of ArchInstaller.password_form:
either loop again with an inline error, or return the accepted secret. -/
inductive PwCheck where
  | reprompt (error : String)
  | accept (secret : String)
deriving DecidableEq

/-- Embeds the validation of one iteration of ArchInstaller.password_form
(src lines 228 to 246) on the two form fields: first the emptiness test
(the Python test is membership of the empty string in the field list), then
the mismatch test, and only then the return of the first field. -/
def password_form_check (f0 f1 : String) : PwCheck :=
  if f0 == "" || f1 == "" then PwCheck.reprompt "ERROR: Password fields cant be empty."
  else if f0 != f1 then PwCheck.reprompt "ERROR: Passwords do not match."
  else PwCheck.accept f0

/-- Embeds the retry loop of ArchInstaller.password_form over successive
operator entries of the two fields; none means the operator input ran out
before a valid entry. -/
def password_form : List (String × String) → Option String
  | [] => none
  | (f0, f1) :: rest =>
    match password_form_check f0 f1 with
    | PwCheck.accept s => some s
    | PwCheck.reprompt _ => password_form rest

/-- One invocation of a selection step as seen by the operator: the candidate
the operator picked, and the yes or no answer given to the confirmation
prompt for that candidate. -/
structure OpEvent where
  choice : String
  accept : Bool
deriving DecidableEq

/-- Accepted candidate of the produce-confirm-reproduce process that a step
such as set_drive runs together with confirm_selection: each event is one
step invocation; a yes answer accepts that invocation candidate, a no answer
makes confirm_selection re-invoke the step on the remaining events; none
means the operator input ran out with no acceptance. -/
def stepExec : List OpEvent → Option String
  | [] => none
  | e :: rest => if e.accept then some e.choice else stepExec rest

/-- Embeds the body of ArchInstaller.confirm_selection (src lines 175 to 180)
as a process: given the current candidate, the operator answer for it and
the remaining operator events, a yes answer accepts the candidate and a no
answer re-runs the calling step on the remaining events. -/
def confirmExec (candidate : String) (answer : Bool) (rest : List OpEvent) : Option String :=
  if answer then some candidate else stepExec rest

/-- Return value of ArchInstaller.confirm_selection in one frame: True when
the operator answers yes; after a no answer the function re-invokes the
caller, discards the result of that call and falls off the end, returning
None. -/
def confirm_selection_return (answer : Bool) : Option Bool :=
  if answer then some true else none

/-- Embeds the helper named caller (src lines 104 to 105) on character lists:
given the caller function name split on underscores, returns the space-joined
tail as display text and the underscore-joined whole as the function name to
re-invoke through eval. -/
def joinSep (sep : Char) : List (List Char) → List Char
  | [] => []
  | [g] => g
  | g :: gs => g ++ sep :: joinSep sep gs

/-- Split of a character list on the underscore character, as Python
str.split applied with an underscore separator. -/
def splitOnUnderscore : List Char → List (List Char)
  | [] => [[]]
  | c :: cs =>
    if c = '_' then [] :: splitOnUnderscore cs
    else
      match splitOnUnderscore cs with
      | [] => [[c]]
      | g :: gs => (c :: g) :: gs

/-- The function caller from the source, on character lists. -/
def caller (parent_func : List (List Char)) : List Char × List Char :=
  (joinSep ' ' (parent_func.drop 1), joinSep '_' parent_func)

/-- The functions of the source that call confirm_selection directly, hence
the names that confirm_selection reconstructs from the call stack and
re-invokes through eval on a no answer. -/
def confirm_selection_callers : List String :=
  ["input_form", "set_user_shell", "set_drive", "set_timezone",
   "set_partition_scheme", "set_swap_creation"]

/-- Final value stored in the class attribute install_drive by
ArchInstaller.set_drive (src lines 271 to 300): each invocation picks a
candidate, calls confirm_selection, and after that call returns it assigns
its own local candidate; on a no answer the recursive re-invocation assigns
first and the outer frame then overwrites with its own candidate; none means
the process never completed. -/
def set_drive_run : List OpEvent → Option String
  | [] => none
  | e :: rest =>
    if e.accept then some e.choice
    else (set_drive_run rest).map fun _ => e.choice

/-- Final value stored in the class attribute timezone by
ArchInstaller.set_timezone (src lines 302 to 325), same frame structure as
set_drive_run. -/
def set_timezone_run : List OpEvent → Option String
  | [] => none
  | e :: rest =>
    if e.accept then some e.choice
    else (set_timezone_run rest).map fun _ => e.choice

/-- One write to the shared answer mapping user_input: field name and written
value. -/
abbrev FieldWrite := String × String

/-- Writes to user_input performed by ArchInstaller.input_form (src lines 218
to 220): the entered answer is confirmed and then discarded, so none. -/
def input_form_writes : List FieldWrite := []

/-- Writes of ArchInstaller.set_hostname (src lines 222 to 223), which only
calls input_form. -/
def set_hostname_writes : List FieldWrite := input_form_writes

/-- Writes of ArchInstaller.set_user_name (src lines 225 to 226), which only
calls input_form. -/
def set_user_name_writes : List FieldWrite := input_form_writes

/-- Writes of ArchInstaller.set_user_password (src lines 248 to 250). -/
def set_user_password_writes (user_password : String) : List FieldWrite :=
  [("user_password", user_password)]

/-- Writes of ArchInstaller.set_root_password (src lines 252 to 255): when
the operator answers yes to reusing the user password, root_password is first
set to the current user password, and then unconditionally set again to the
result of a fresh password form. -/
def set_root_password_writes (reuse : Bool) (user_password form_password : String) :
    List FieldWrite :=
  (if reuse then [("root_password", user_password)] else []) ++ [("root_password", form_password)]

/-- Writes of ArchInstaller.set_user_shell to user_input: none, the accepted
shell goes to a class attribute named shell instead (src line 269). -/
def set_user_shell_writes : List FieldWrite := []

/-- Writes of ArchInstaller.set_drive to user_input: none, the drive goes to
a class attribute named install_drive instead (src line 300). -/
def set_drive_writes : List FieldWrite := []

/-- Writes of ArchInstaller.set_bootloader to user_input: none, the menu
result is discarded (src lines 195 to 216). -/
def set_bootloader_writes : List FieldWrite := []

/-- Writes of ArchInstaller.set_timezone to user_input: none, the timezone
goes to a class attribute named timezone instead (src line 325). -/
def set_timezone_writes : List FieldWrite := []

/-- Writes of ArchInstaller.set_partition_scheme (src lines 327 to 342). -/
def set_partition_scheme_writes (p_scheme : String) : List FieldWrite :=
  [("partition_scheme", p_scheme)]

/-- Writes of ArchInstaller.set_partition_sizes to user_input: none, its loop
body only displays a menu (src lines 351 to 367). -/
def set_partition_sizes_writes : List FieldWrite := []

/-- Writes to user_input performed by a full pass of ArchInstaller.run (src
lines 130 to 142), in declaration order of the steps, parameterized by the
operator inputs: the reuse answer of set_root_password, the two password-form
results, and the chosen partition scheme. welcome_user and start_ntp_sync
write nothing. -/
def run_user_input_writes (reuse : Bool) (user_password form_password p_scheme : String) :
    List FieldWrite :=
  set_user_name_writes
    ++ set_user_password_writes user_password
    ++ set_root_password_writes reuse user_password form_password
    ++ set_user_shell_writes
    ++ set_drive_writes
    ++ set_bootloader_writes
    ++ set_hostname_writes
    ++ set_timezone_writes
    ++ set_partition_scheme_writes p_scheme
    ++ set_partition_sizes_writes

/-- Number of writes a write log performs on a given field. -/
def writeCount (log : List FieldWrite) (field : String) : Nat :=
  (log.filter fun w => w.1 == field).length

/-- Resolution scope of a Python attribute lookup on an ArchInstaller
instance. -/
inductive AttrScope where
  | instanceLevel
  | classLevel
  | absent
deriving DecidableEq

/-- Python attribute resolution: the instance dictionary first, then the
class dictionary. -/
def attr_scope (instance_attrs class_attrs : List String) (name : String) : AttrScope :=
  if instance_attrs.contains name then AttrScope.instanceLevel
  else if class_attrs.contains name then AttrScope.classLevel
  else AttrScope.absent

/-- Attribute names bound at class level on ArchInstaller (src lines 108 to
119): the answer mapping user_input. -/
def ArchInstaller_class_attrs : List String := ["user_input"]

/-- Attribute names bound on an instance by ArchInstaller init (src lines 121
to 128); user_input is not among them, so instance reads of user_input
resolve to the class attribute. -/
def ArchInstaller_init_attrs : List String :=
  ["Dlg", "d", "dlg_dims", "max_lines", "max_cols", "min_rows", "min_cols",
   "term_rows", "term_cols", "backend_version"]

/-- Python dict update of one key, replacing an existing binding in place. -/
def dict_set : List (String × String) → String → String → List (String × String)
  | [], k, v => [(k, v)]
  | p :: rest, k, v => if p.1 == k then (k, v) :: rest else p :: dict_set rest k v

/-- Python dict lookup. -/
def dict_get (d : List (String × String)) (k : String) : Option String :=
  (d.find? fun p => p.1 == k).map Prod.snd

/-- The process-wide state relevant to the answer mapping: the single dict
object bound to the class attribute user_input, shared by every
ArchInstaller instance in the process. -/
structure PyProcess where
  class_user_input : List (String × String)
deriving DecidableEq

/-- Reading inst.user_input on any initialized instance: since user_input is
not an instance attribute, the read resolves to the single class-level dict,
whichever instance it goes through. -/
def read_user_input (p : PyProcess) (_inst : Nat) : List (String × String) :=
  p.class_user_input

/-- Embeds the update of ArchInstaller.set_user_password (src lines 248 to
250) as performed through a given instance: the method mutates
ArchInstaller.user_input, the class-level dict, whatever instance it was
called on. -/
def set_user_password_via (p : PyProcess) (_inst : Nat) (pwd : String) : PyProcess :=
  ⟨dict_set p.class_user_input "user_password" pwd⟩

lemma digitChar_toNat {d : Nat} (h : d < 10) : (digitChar d).toNat = 48 + d := by
  interval_cases d <;> rfl

lemma isDigitChar_digitChar {d : Nat} (h : d < 10) : isDigitChar (digitChar d) = true := by
  interval_cases d <;> decide

lemma natToDigitsAux_stable (f1 : Nat) :
    ∀ f2 n, n < f1 → n < f2 → natToDigitsAux f1 n = natToDigitsAux f2 n := by
  induction f1 with
  | zero => intro f2 n h1 _; omega
  | succ f1 ih =>
    intro f2 n h1 h2
    cases f2 with
    | zero => omega
    | succ f2 =>
      simp only [natToDigitsAux]
      by_cases h10 : n < 10
      · simp [h10]
      · have hdiv : n / 10 < n := Nat.div_lt_self (by omega) (by omega)
        rw [if_neg h10, if_neg h10, ih f2 (n / 10) (by omega) (by omega)]

lemma natToDigits_eq (n : Nat) :
    natToDigits n =
      if n < 10 then [digitChar n] else natToDigits (n / 10) ++ [digitChar (n % 10)] := by
  show natToDigitsAux (n + 1) n = _
  simp only [natToDigitsAux]
  by_cases h10 : n < 10
  · simp [h10]
  · have hdiv : n / 10 < n := Nat.div_lt_self (by omega) (by omega)
    rw [if_neg h10, if_neg h10]
    show natToDigitsAux n (n / 10) ++ _ = natToDigitsAux (n / 10 + 1) (n / 10) ++ _
    rw [natToDigitsAux_stable n (n / 10 + 1) (n / 10) (by omega) (by omega)]

lemma natToDigits_lt10 {n : Nat} (h : n < 10) : natToDigits n = [digitChar n] := by
  rw [natToDigits_eq, if_pos h]

lemma natToDigits_two_digit {n : Nat} (h1 : 10 ≤ n) (h2 : n < 100) :
    natToDigits n = [digitChar (n / 10), digitChar (n % 10)] := by
  rw [natToDigits_eq, if_neg (by omega), natToDigits_lt10 (by omega)]
  rfl

lemma natToDigits_ne_nil (n : Nat) : natToDigits n ≠ [] := by
  rw [natToDigits_eq]
  split <;> simp

lemma digitsToNat_append_singleton (l : List Char) (c : Char) :
    digitsToNat (l ++ [c]) = digitsToNat l * 10 + (c.toNat - 48) := by
  simp [digitsToNat, List.foldl_append]

lemma digitsToNat_natToDigits (n : Nat) : digitsToNat (natToDigits n) = n := by
  induction n using Nat.strong_induction_on with
  | _ n ih =>
    rw [natToDigits_eq]
    by_cases h10 : n < 10
    · rw [if_pos h10]
      simp [digitsToNat, digitChar_toNat h10]
    · rw [if_neg h10]
      have hdiv : n / 10 < n := Nat.div_lt_self (by omega) (by omega)
      rw [digitsToNat_append_singleton, ih (n / 10) hdiv,
        digitChar_toNat (Nat.mod_lt n (by omega))]
      omega

lemma natToDigits_all_digits (n : Nat) : ∀ c ∈ natToDigits n, isDigitChar c = true := by
  induction n using Nat.strong_induction_on with
  | _ n ih =>
    rw [natToDigits_eq]
    by_cases h10 : n < 10
    · rw [if_pos h10]
      intro c hc
      rw [List.mem_singleton] at hc
      subst hc
      exact isDigitChar_digitChar h10
    · rw [if_neg h10]
      intro c hc
      rcases List.mem_append.mp hc with h1 | h2
      · exact ih (n / 10) (Nat.div_lt_self (by omega) (by omega)) c h1
      · rw [List.mem_singleton] at h2
        subst h2
        exact isDigitChar_digitChar (Nat.mod_lt n (by omega))

lemma toLowerChar_digit {c : Char} (h : isDigitChar c = true) : toLowerChar c = c := by
  have hc : 48 ≤ c.toNat ∧ c.toNat ≤ 57 := by
    simpa [isDigitChar] using h
  rw [toLowerChar, if_neg (by omega)]

lemma map_toLowerChar_id {l : List Char} (h : ∀ c ∈ l, isDigitChar c = true) :
    l.map toLowerChar = l := by
  induction l with
  | nil => rfl
  | cons a l ih =>
    rw [List.map_cons, toLowerChar_digit (h a (List.mem_cons_self a l)),
      ih fun c hc => h c (List.mem_cons_of_mem a hc)]

lemma takeWhile_all_append {p : Char → Bool} :
    ∀ (l : List Char), (∀ c ∈ l, p c = true) → ∀ (h : Char), p h = false → ∀ (t : List Char),
      (l ++ h :: t).takeWhile p = l ∧ (l ++ h :: t).dropWhile p = h :: t := by
  intro l
  induction l with
  | nil =>
    intro _ h hh t
    constructor
    · simp [List.takeWhile_cons, hh]
    · simp [List.dropWhile_cons, hh]
  | cons a l ih =>
    intro hl h hh t
    have ha : p a = true := hl a (List.mem_cons_self a l)
    have hrest := ih (fun c hc => hl c (List.mem_cons_of_mem a hc)) h hh t
    constructor
    · simp [List.takeWhile_cons, ha, hrest.1]
    · simp [List.dropWhile_cons, ha, hrest.2]

lemma isEmpty_false_of_ne_nil {l : List Char} (h : l ≠ []) : l.isEmpty = false := by
  cases l with
  | nil => exact absurd rfl h
  | cons a l => rfl

lemma parseSizeChars_int_only (ipd u : List Char) (f : Nat)
    (hipd : ∀ c ∈ ipd, isDigitChar c = true) (hipne : ipd ≠ [])
    (hu : unitFactor (u.dropWhile fun c => c == ' ') = some f) :
    parseSizeChars (ipd ++ ' ' :: u) = some (digitsToNat ipd * f) := by
  have hsp : isDigitChar ' ' = false := by decide
  have h1 := takeWhile_all_append ipd hipd ' ' hsp u
  have hsf : splitFrac (' ' :: u) = ([], ' ' :: u) := rfl
  have hdw : ((' ' :: u).dropWhile fun c => c == ' ') = u.dropWhile fun c => c == ' ' := by
    simp [List.dropWhile_cons]
  unfold parseSizeChars
  rw [h1.1, h1.2, isEmpty_false_of_ne_nil hipne, hsf]
  simp only [hdw, hu]
  norm_num [digitsToNat]

lemma parseSizeChars_int_frac (ipd fds u : List Char) (f : Nat)
    (hipd : ∀ c ∈ ipd, isDigitChar c = true) (hipne : ipd ≠ [])
    (hfds : ∀ c ∈ fds, isDigitChar c = true)
    (hu : unitFactor (u.dropWhile fun c => c == ' ') = some f) :
    parseSizeChars (ipd ++ '.' :: (fds ++ ' ' :: u)) =
      some ((digitsToNat ipd * 10 ^ fds.length + digitsToNat fds) * f / 10 ^ fds.length) := by
  have hdot : isDigitChar '.' = false := by decide
  have hsp : isDigitChar ' ' = false := by decide
  have h1 := takeWhile_all_append ipd hipd '.' hdot (fds ++ ' ' :: u)
  have h2 := takeWhile_all_append fds hfds ' ' hsp u
  have hsf : splitFrac ('.' :: (fds ++ ' ' :: u)) =
      ((fds ++ ' ' :: u).takeWhile isDigitChar, (fds ++ ' ' :: u).dropWhile isDigitChar) := rfl
  have hdw : ((' ' :: u).dropWhile fun c => c == ' ') = u.dropWhile fun c => c == ' ' := by
    simp [List.dropWhile_cons]
  unfold parseSizeChars
  rw [h1.1, h1.2, isEmpty_false_of_ne_nil hipne, hsf, h2.1, h2.2]
  simp only [hdw, hu]
  simp

lemma map_toLowerChar_formatHundredths (h : Nat) :
    (formatHundredths h).map toLowerChar = formatHundredths h := by
  have hdot : toLowerChar '.' = '.' := by decide
  have hzero : toLowerChar '0' = '0' := by decide
  unfold formatHundredths
  split_ifs with h1 h2 h3 <;>
    simp [List.map_append, List.map_cons, map_toLowerChar_id (natToDigits_all_digits _),
      hdot, hzero]

lemma formatSizeChars_none {n : Nat} (h : pickUnit n = none) :
    formatSizeChars n =
      natToDigits n
        ++ (if n = 1 then [' ', 'b', 'y', 't', 'e'] else [' ', 'b', 'y', 't', 'e', 's']) := by
  unfold formatSizeChars
  rw [h]

lemma formatSizeChars_some {n f : Nat} {u : List Char} (h : pickUnit n = some (f, u)) :
    formatSizeChars n = formatHundredths ((n * 100 + f / 2) / f) ++ [' '] ++ u := by
  unfold formatSizeChars
  rw [h]

lemma displayFactor_some {n f : Nat} {u : List Char} (h : pickUnit n = some (f, u)) :
    displayFactor n = f := by
  unfold displayFactor
  rw [h]

lemma roundtrip_bytes (n : Nat) :
    parseSizeChars (natToDigits n
      ++ (if n = 1 then [' ', 'b', 'y', 't', 'e'] else [' ', 'b', 'y', 't', 'e', 's']))
      = some n := by
  by_cases h1 : n = 1
  · subst h1
    decide
  · rw [if_neg h1]
    show parseSizeChars (natToDigits n ++ ' ' :: ['b', 'y', 't', 'e', 's']) = some n
    rw [parseSizeChars_int_only _ _ 1 (natToDigits_all_digits _) (natToDigits_ne_nil _)
      (by decide), digitsToNat_natToDigits, Nat.mul_one]

lemma roundtrip_unit (n f : Nat) (u : List Char) (hf : 0 < f)
    (hdvd : f ∣ n * 100)
    (hu : unitFactor (u.dropWhile fun c => c == ' ') = some f) :
    parseSizeChars (formatHundredths ((n * 100 + f / 2) / f) ++ ' ' :: u) = some n := by
  obtain ⟨q, hq⟩ := hdvd
  have hh : (n * 100 + f / 2) / f = q := by
    rw [hq, Nat.mul_add_div hf, Nat.div_eq_of_lt (Nat.div_lt_self hf (by omega)), Nat.add_zero]
  have hqf : q * f = n * 100 := by
    rw [hq]
    ring
  rw [hh]
  by_cases hfp0 : q % 100 = 0
  · have hfh : formatHundredths q = natToDigits (q / 100) := by
      unfold formatHundredths
      rw [if_pos hfp0]
    rw [hfh,
      parseSizeChars_int_only _ u f (natToDigits_all_digits _) (natToDigits_ne_nil _) hu,
      digitsToNat_natToDigits]
    congr 1
    have h100 : 100 * (q / 100 * f) = 100 * n := by
      have hq100 : q = 100 * (q / 100) := by omega
      calc 100 * (q / 100 * f) = 100 * (q / 100) * f := by ring
        _ = q * f := by rw [← hq100]
        _ = n * 100 := hqf
        _ = 100 * n := by ring
    exact Nat.eq_of_mul_eq_mul_left (by omega) h100
  · by_cases hfp10 : q % 100 % 10 = 0
    · have hd : q % 100 / 10 < 10 := by omega
      have hfh : formatHundredths q =
          natToDigits (q / 100) ++ ['.'] ++ natToDigits (q % 100 / 10) := by
        unfold formatHundredths
        rw [if_neg hfp0, if_pos hfp10]
      have hassoc : (natToDigits (q / 100) ++ ['.'] ++ [digitChar (q % 100 / 10)]) ++ ' ' :: u
          = natToDigits (q / 100) ++ '.' :: ([digitChar (q % 100 / 10)] ++ ' ' :: u) := by
        simp [List.append_assoc]
      rw [hfh, natToDigits_lt10 hd, hassoc,
        parseSizeChars_int_frac _ _ u f (natToDigits_all_digits _) (natToDigits_ne_nil _)
          (by
            intro c hc
            rw [List.mem_singleton] at hc
            subst hc
            exact isDigitChar_digitChar hd) hu,
        digitsToNat_natToDigits]
      have hdtn : digitsToNat [digitChar (q % 100 / 10)] = q % 100 / 10 := by
        simp [digitsToNat, digitChar_toNat hd]
      rw [hdtn]
      congr 1
      have hq10 : 10 * (q / 100 * 10 + q % 100 / 10) = q := by omega
      have h10 : 10 * ((q / 100 * 10 + q % 100 / 10) * f) = 10 * (n * 10) := by
        calc 10 * ((q / 100 * 10 + q % 100 / 10) * f)
            = 10 * (q / 100 * 10 + q % 100 / 10) * f := by ring
          _ = q * f := by rw [hq10]
          _ = n * 100 := hqf
          _ = 10 * (n * 10) := by ring
      have hXf : (q / 100 * 10 + q % 100 / 10) * f = n * 10 :=
        Nat.eq_of_mul_eq_mul_left (by omega) h10
      simp only [List.length_singleton, pow_one]
      rw [hXf]
      exact Nat.mul_div_cancel n (by omega)
    · have hfp100 : q % 100 < 100 := by omega
      have harith : ∀ fds : List Char, digitsToNat fds = q % 100 → fds.length = 2 →
          (digitsToNat (natToDigits (q / 100)) * 10 ^ fds.length + digitsToNat fds) * f
            / 10 ^ fds.length = n := by
        intro fds hval hlen
        rw [hval, hlen, digitsToNat_natToDigits]
        have hq100 : q / 100 * 10 ^ 2 + q % 100 = q := by
          norm_num
          omega
        rw [show (q / 100 * 10 ^ 2 + q % 100) * f = q * f by rw [hq100], hqf]
        norm_num
      by_cases hlt : q % 100 < 10
      · have hfh : formatHundredths q =
            natToDigits (q / 100) ++ ['.'] ++ ('0' :: natToDigits (q % 100)) := by
          unfold formatHundredths
          rw [if_neg hfp0, if_neg hfp10, if_pos hlt]
        have hassoc : (natToDigits (q / 100) ++ ['.'] ++ ('0' :: [digitChar (q % 100)])) ++ ' ' :: u
            = natToDigits (q / 100) ++ '.' :: (('0' :: [digitChar (q % 100)]) ++ ' ' :: u) := by
          simp [List.append_assoc]
        rw [hfh, natToDigits_lt10 hlt, hassoc,
          parseSizeChars_int_frac _ _ u f (natToDigits_all_digits _) (natToDigits_ne_nil _)
            (by
              intro c hc
              rcases List.mem_cons.mp hc with rfl | hc
              · decide
              · rw [List.mem_singleton] at hc
                subst hc
                exact isDigitChar_digitChar hlt) hu]
        congr 1
        exact harith _ (by simp [digitsToNat, digitChar_toNat hlt]) rfl
      · have hge : 10 ≤ q % 100 := by omega
        have hfh : formatHundredths q =
            natToDigits (q / 100) ++ ['.'] ++ natToDigits (q % 100) := by
          unfold formatHundredths
          rw [if_neg hfp0, if_neg hfp10, if_neg hlt]
        have htwo := natToDigits_two_digit hge hfp100
        have hassoc : (natToDigits (q / 100) ++ ['.']
              ++ [digitChar (q % 100 / 10), digitChar (q % 100 % 10)]) ++ ' ' :: u
            = natToDigits (q / 100)
              ++ '.' :: ([digitChar (q % 100 / 10), digitChar (q % 100 % 10)] ++ ' ' :: u) := by
          simp [List.append_assoc]
        rw [hfh, htwo, hassoc,
          parseSizeChars_int_frac _ _ u f (natToDigits_all_digits _) (natToDigits_ne_nil _)
            (by
              intro c hc
              rcases List.mem_cons.mp hc with rfl | hc
              · exact isDigitChar_digitChar (by omega)
              · rw [List.mem_singleton] at hc
                subst hc
                exact isDigitChar_digitChar (by omega)) hu]
        congr 1
        refine harith _ ?_ rfl
        simp [digitsToNat, digitChar_toNat (show q % 100 / 10 < 10 by omega),
          digitChar_toNat (show q % 100 % 10 < 10 by omega)]
        omega

lemma splitOnUnderscore_ne_nil (cs : List Char) : splitOnUnderscore cs ≠ [] := by
  cases cs with
  | nil => simp [splitOnUnderscore]
  | cons c cs =>
    unfold splitOnUnderscore
    split_ifs
    · simp
    · rcases h : splitOnUnderscore cs with _ | ⟨g, gs⟩ <;> simp [h]

lemma joinSep_splitOnUnderscore (cs : List Char) :
    joinSep '_' (splitOnUnderscore cs) = cs := by
  induction cs with
  | nil => rfl
  | cons c cs ih =>
    unfold splitOnUnderscore
    by_cases hc : c = '_'
    · rw [if_pos hc]
      subst hc
      rcases h : splitOnUnderscore cs with _ | ⟨g, gs⟩
      · exact absurd h (splitOnUnderscore_ne_nil cs)
      · rw [h] at ih
        show [] ++ '_' :: joinSep '_' (g :: gs) = '_' :: cs
        rw [List.nil_append, ih]
    · rw [if_neg hc]
      rcases h : splitOnUnderscore cs with _ | ⟨g, gs⟩
      · exact absurd h (splitOnUnderscore_ne_nil cs)
      · rw [h] at ih
        show joinSep '_' ((c :: g) :: gs) = c :: cs
        cases gs with
        | nil =>
          show c :: g = c :: cs
          simpa [joinSep] using ih
        | cons g2 gs2 =>
          show (c :: g) ++ '_' :: joinSep '_' (g2 :: gs2) = c :: cs
          rw [List.cons_append]
          exact congrArg (List.cons c) ih

lemma dict_get_set (d : List (String × String)) (k v : String) :
    dict_get (dict_set d k v) k = some v := by
  induction d with
  | nil => simp [dict_set, dict_get, List.find?]
  | cons p rest ih =>
    unfold dict_set
    by_cases hp : p.1 == k
    · rw [if_pos hp]
      simp [dict_get, List.find?]
    · rw [if_neg hp]
      have hp' : (p.1 == k) = false := by
        cases hb : p.1 == k
        · rfl
        · exact absurd hb hp
      simpa [dict_get, List.find?, hp'] using ih

theorem roundtrip_exact_raw (n : Nat) (h : n * 100 % displayFactor n = 0) :
    parse_size (format_size n) = some n := by
  show parseSizeChars ((formatSizeChars n).map toLowerChar) = some n
  rcases hpu : pickUnit n with _ | ⟨f, u⟩
  · rw [formatSizeChars_none hpu, List.map_append,
      map_toLowerChar_id (natToDigits_all_digits n)]
    have htail :
        ((if n = 1 then [' ', 'b', 'y', 't', 'e'] else [' ', 'b', 'y', 't', 'e', 's']) :
          List Char).map toLowerChar
          = if n = 1 then [' ', 'b', 'y', 't', 'e'] else [' ', 'b', 'y', 't', 'e', 's'] := by
      split <;> decide
    rw [htail]
    exact roundtrip_bytes n
  · have hcase : (f = 1000000000000 ∧ u = ['T', 'B']) ∨ (f = 1000000000 ∧ u = ['G', 'B'])
        ∨ (f = 1000000 ∧ u = ['M', 'B']) ∨ (f = 1000 ∧ u = ['K', 'B']) := by
      unfold pickUnit at hpu
      split_ifs at hpu <;> simp_all
    have hf : 0 < f := by
      rcases hcase with ⟨h1, _⟩ | ⟨h1, _⟩ | ⟨h1, _⟩ | ⟨h1, _⟩ <;> omega
    have hulow : unitFactor ((u.map toLowerChar).dropWhile fun c => c == ' ') = some f := by
      rcases hcase with ⟨h1, h2⟩ | ⟨h1, h2⟩ | ⟨h1, h2⟩ | ⟨h1, h2⟩ <;> subst h1 <;> subst h2 <;>
        decide
    have hdvd : f ∣ n * 100 := by
      rw [displayFactor_some hpu] at h
      exact Nat.dvd_of_mod_eq_zero h
    rw [formatSizeChars_some hpu, List.map_append, List.map_append,
      map_toLowerChar_formatHundredths]
    have hspace : ([' '] : List Char).map toLowerChar = [' '] := by decide
    rw [hspace]
    have hassoc : formatHundredths ((n * 100 + f / 2) / f) ++ [' '] ++ u.map toLowerChar
        = formatHundredths ((n * 100 + f / 2) / f) ++ ' ' :: u.map toLowerChar := by
      simp [List.append_assoc]
    rw [hassoc]
    exact roundtrip_unit n f (u.map toLowerChar) hf hdvd hulow

/-- Claim C1: the source computes the default size for the remaining mount
point with the left-associated expression disk - boot + root + swap instead
of the specified disk - (boot + root + swap): on a 500GB disk with the fixed
defaults the code offers 539.75 GB (539,750,000,000 bytes, more than the
disk), not the 459,750,000,000 bytes the claim states, and on a 39GB disk it
offers 78.75 GB instead of signalling an invalid layout. -/
theorem c1_home_size_code_eval :
    (set_partition_sizes_layout "500GB").map (fun l => (l.2.2.2.raw, l.2.2.2.humanized))
      = some (539750000000, "539.75 GB")
  ∧ spec_remaining_capacity 500000000000 250000000 30000000000 10000000000 = 459750000000
  ∧ (set_partition_sizes_layout "500GB").map (fun l => l.2.2.2.raw) ≠ some 459750000000
  ∧ (set_partition_sizes_layout "39GB").map (fun l => (l.2.2.2.raw, l.2.2.2.humanized))
      = some (78750000000, "78.75 GB") := by
  refine ⟨by decide, by decide, by decide, by decide⟩

/-- Claim C2: contrary to the claim, a non-zero exit status of the external
command makes run_sh_cmd raise CalledProcessError (subprocess.run is invoked
with check=True), terminating the wizard with an unhandled exception instead
of reporting the failure and continuing. -/
theorem c2_nonzero_exit_raises :
    run_sh_cmd "Reflector" 1 = Except.error "CalledProcessError"
  ∧ run_sh_cmd "timedatectl set-ntp true" 2 = Except.error "CalledProcessError" :=
  ⟨rfl, rfl⟩

/-- Claim C3: the write log of a full pass of run over user_input, with the
operator answering yes to reusing the user password, refutes the invariant:
root_password is written twice inside its single step, user_password once,
and host_name, user_name, install_drive, timezone, bootloader and add_swap
are never written at all, so those fields stay empty after their steps are
accepted. -/
theorem c3_write_log_code_eval :
    writeCount (run_user_input_writes true "pw1" "pw2" "Single root partition") "root_password"
      = 2
  ∧ writeCount (run_user_input_writes true "pw1" "pw2" "Single root partition") "user_password"
      = 1
  ∧ writeCount (run_user_input_writes true "pw1" "pw2" "Single root partition") "host_name" = 0
  ∧ writeCount (run_user_input_writes true "pw1" "pw2" "Single root partition") "user_name" = 0
  ∧ writeCount (run_user_input_writes true "pw1" "pw2" "Single root partition") "install_drive"
      = 0
  ∧ writeCount (run_user_input_writes true "pw1" "pw2" "Single root partition") "timezone" = 0
  ∧ writeCount (run_user_input_writes true "pw1" "pw2" "Single root partition") "bootloader" = 0
  ∧ writeCount (run_user_input_writes true "pw1" "pw2" "Single root partition") "add_swap" = 0 := by
  refine ⟨by decide, by decide, by decide, by decide, by decide, by decide, by decide, by decide⟩

/-- Claim C4: the password form validates in a fixed order: an empty field
always yields the emptiness error (even when the fields also differ), only
then a mismatch yields the mismatch error, and only when both checks pass is
the entered secret accepted; a rejected entry re-prompts. The literal error
texts in the source are ERROR: Password fields cant be empty. and
ERROR: Passwords do not match. -/
theorem c4_password_validation_order :
    (∀ f0 f1 : String, (f0 = "" ∨ f1 = "") →
      password_form_check f0 f1 = PwCheck.reprompt "ERROR: Password fields cant be empty.")
  ∧ (∀ f0 f1 : String, f0 ≠ "" → f1 ≠ "" → f0 ≠ f1 →
      password_form_check f0 f1 = PwCheck.reprompt "ERROR: Passwords do not match.")
  ∧ (∀ f0 f1 : String, f0 ≠ "" → f0 = f1 → password_form_check f0 f1 = PwCheck.accept f0)
  ∧ (∀ (f0 f1 : String) (rest : List (String × String)), (f0 = "" ∨ f1 = "") →
      password_form ((f0, f1) :: rest) = password_form rest)
  ∧ password_form_check "" "x" = PwCheck.reprompt "ERROR: Password fields cant be empty."
  ∧ password_form_check "abc" "xyz" = PwCheck.reprompt "ERROR: Passwords do not match."
  ∧ password_form_check "abc" "abc" = PwCheck.accept "abc" := by
  refine ⟨?_, ?_, ?_, ?_, by decide, by decide, by decide⟩
  · intro f0 f1 h
    rcases h with rfl | rfl <;> simp [password_form_check]
  · intro f0 f1 h0 h1 h2
    simp [password_form_check, h0, h1, h2]
  · intro f0 f1 h0 he
    subst he
    simp [password_form_check, h0]
  · intro f0 f1 rest h
    rcases h with rfl | rfl <;> simp [password_form, password_form_check]

/-- Witness for claim C4 at the concrete field pairs of the claim. -/
theorem c4_password_validation_witness :
    password_form_check "" "x" = PwCheck.reprompt "ERROR: Password fields cant be empty."
  ∧ password_form_check "abc" "xyz" = PwCheck.reprompt "ERROR: Passwords do not match."
  ∧ password_form_check "abc" "abc" = PwCheck.accept "abc"
  ∧ password_form [("", "x"), ("abc", "abc")] = some "abc" :=
  ⟨c4_password_validation_order.1 "" "x" (Or.inl rfl),
   c4_password_validation_order.2.1 "abc" "xyz" (by decide) (by decide) (by decide),
   c4_password_validation_order.2.2.1 "abc" "abc" (by decide) rfl,
   by
     rw [c4_password_validation_order.2.2.2.1 "" "x" [("abc", "abc")] (Or.inl rfl)]
     decide⟩

/-- Claim C5: confirm_selection accepts the current candidate on a yes
answer; on a no answer the process continues as a fresh run of the same
step on the remaining operator events; an empty event list yields no
acceptance; any accepted value comes from an event the operator answered yes
to; and the function name the gate reconstructs from the call stack and
re-invokes through eval is exactly the name of the calling step, never a
different one. -/
theorem c5_confirmation_gate :
    (∀ (c : String) (rest : List OpEvent), confirmExec c true rest = some c)
  ∧ (∀ (c : String) (rest : List OpEvent), confirmExec c false rest = stepExec rest)
  ∧ stepExec [] = none
  ∧ (∀ (evts : List OpEvent) (c : String), stepExec evts = some c →
      ∃ e ∈ evts, e.accept = true ∧ e.choice = c)
  ∧ (∀ name ∈ confirm_selection_callers,
      (caller (splitOnUnderscore name.data)).2 = name.data) := by
  refine ⟨fun c rest => rfl, fun c rest => rfl, rfl, ?_, ?_⟩
  · intro evts
    induction evts with
    | nil => intro c hc; exact absurd hc (by simp [stepExec])
    | cons e rest ih =>
      intro c hc
      by_cases he : e.accept
      · refine ⟨e, List.mem_cons_self e rest, he, ?_⟩
        rw [stepExec, if_pos he] at hc
        exact (Option.some.injEq _ _).mp hc
      · rw [stepExec, if_neg he] at hc
        obtain ⟨e2, hmem, hacc, hch⟩ := ih c hc
        exact ⟨e2, List.mem_cons_of_mem e hmem, hacc, hch⟩
  · intro name _
    exact joinSep_splitOnUnderscore name.data

/-- Witness for claim C5 at a concrete accepting run and a concrete step
name. -/
theorem c5_confirmation_gate_witness :
    (∃ e ∈ [(⟨"sda", true⟩ : OpEvent)], e.accept = true ∧ e.choice = "sda")
  ∧ (caller (splitOnUnderscore ("set_drive" : String).data)).2 = ("set_drive" : String).data :=
  ⟨c5_confirmation_gate.2.2.2.1 [⟨"sda", true⟩] "sda" rfl,
   c5_confirmation_gate.2.2.2.2 "set_drive" (by decide)⟩

/-- Claim C6: parsing 250mb yields the raw byte count 250,000,000 under the
decimal convention, and humanizing that byte count yields a text ending in
MB (concretely 250 MB). -/
theorem c6_parse_humanize_250mb :
    parse_size "250mb" = some 250000000
  ∧ format_size 250000000 = "250 MB"
  ∧ List.isSuffixOf ['M', 'B'] (format_size 250000000).data = true := by
  refine ⟨by decide, by decide, by decide⟩

/-- Counterexample to claim C7: the valid size string 1234567 parses to
1,234,567 bytes, but humanizing rounds to two decimal places of the MB unit,
giving 1.23 MB, which denotes 1,230,000 bytes, a different byte count. -/
theorem c7_roundtrip_counterexample :
    parse_size "1234567" = some 1234567
  ∧ format_size 1234567 = "1.23 MB"
  ∧ parse_size (format_size 1234567) = some 1230000
  ∧ (1230000 : Nat) ≠ 1234567 := by
  refine ⟨by decide, by decide, by decide, by decide⟩

/-- Claim C7 as amended: for every valid size string whose byte count is
exactly representable with two decimal places in the display unit that
humanize selects (always true below one kB), humanizing the parsed byte
count denotes that same byte count. -/
theorem c7_roundtrip_exact (s : String) (n : Nat) (hs : parse_size s = some n)
    (hexact : n * 100 % displayFactor n = 0) :
    parse_size (format_size n) = some n :=
  roundtrip_exact_raw n hexact

/-- Witness for the amended claim C7 at the size string 250mb. -/
theorem c7_roundtrip_exact_witness :
    parse_size (format_size 250000000) = some 250000000 :=
  c7_roundtrip_exact "250mb" 250000000 (by decide) (by decide)

/-- Claim C8: with check=True on the subprocess call, whenever run_sh_cmd
returns normally it has taken the success branch: the return value is True,
only the success box was displayed, and the failure box is unreachable. -/
theorem c8_failure_branch_unreachable (name : String) (rc : Int) (o : ShOutcome)
    (h : run_sh_cmd name rc = Except.ok o) :
    o.ret = some true
  ∧ o.events = [UiEvent.successBox name]
  ∧ UiEvent.failureBox name ∉ o.events := by
  unfold run_sh_cmd at h
  by_cases h0 : rc = 0
  · rw [if_neg (fun hn => hn h0), if_pos h0] at h
    injection h with h
    subst h
    refine ⟨rfl, rfl, by simp⟩
  · rw [if_pos h0] at h
    exact absurd h (by simp)

/-- Witness for claim C8 at exit status zero. -/
theorem c8_failure_branch_unreachable_witness :
    (⟨[UiEvent.successBox "NTP"], some true⟩ : ShOutcome).ret = some true
  ∧ (⟨[UiEvent.successBox "NTP"], some true⟩ : ShOutcome).events = [UiEvent.successBox "NTP"]
  ∧ UiEvent.failureBox "NTP" ∉ (⟨[UiEvent.successBox "NTP"], some true⟩ : ShOutcome).events :=
  c8_failure_branch_unreachable "NTP" 0 ⟨[UiEvent.successBox "NTP"], some true⟩ rfl

/-- Claim C9: confirm_selection returns True exactly on a yes answer and
None on a no answer, and a step that assigns its local candidate after the
confirm_selection call (set_drive, set_timezone) stores the first, rejected
candidate: when the operator rejects d1 and then accepts d2, the accepted
candidate of the process is d2 but the stored value is d1. -/
theorem c9_rejected_candidate_stored :
    (∀ a : Bool, confirm_selection_return a = some true ↔ a = true)
  ∧ confirm_selection_return false = none
  ∧ (∀ (d1 d2 : String) (rest : List OpEvent),
      set_drive_run (⟨d1, false⟩ :: ⟨d2, true⟩ :: rest) = some d1)
  ∧ (∀ (d1 d2 : String) (rest : List OpEvent),
      stepExec (⟨d1, false⟩ :: ⟨d2, true⟩ :: rest) = some d2)
  ∧ (∀ (t1 t2 : String) (rest : List OpEvent),
      set_timezone_run (⟨t1, false⟩ :: ⟨t2, true⟩ :: rest) = some t1) := by
  refine ⟨?_, rfl, fun d1 d2 rest => rfl, fun d1 d2 rest => rfl, fun t1 t2 rest => rfl⟩
  intro a
  cases a <;> simp [confirm_selection_return]

/-- Witness for claim C9 at a concrete rejected-then-accepted run. -/
theorem c9_rejected_candidate_stored_witness :
    confirm_selection_return true = some true
  ∧ set_drive_run [(⟨"sda", false⟩ : OpEvent), ⟨"sdb", true⟩] = some "sda" :=
  ⟨(c9_rejected_candidate_stored.1 true).mpr rfl,
   c9_rejected_candidate_stored.2.2.1 "sda" "sdb" []⟩

/-- Claim C10: user_input resolves to the class level for every initialized
instance (init binds no instance attribute of that name), reads through any
two instances see the same dict, and an update performed through one
instance is visible through every other instance of the process. -/
theorem c10_class_level_shared_state :
    attr_scope ArchInstaller_init_attrs ArchInstaller_class_attrs "user_input"
      = AttrScope.classLevel
  ∧ (∀ (p : PyProcess) (i j : Nat), read_user_input p i = read_user_input p j)
  ∧ (∀ (p : PyProcess) (i j : Nat) (pwd : String),
      dict_get (read_user_input (set_user_password_via p i pwd) j) "user_password" = some pwd) := by
  refine ⟨by decide, fun p i j => rfl, fun p i j pwd => dict_get_set _ _ _⟩
